import Mathlib

/-!
# Verification of the CPU line-quad expansion of mhalber/Lines

Shallow embedding of `cpu_lines_expand` (src/cpu_lines.h) and of the
`msh` vector-math helpers it uses (src/extern/msh_vec_math.h), over ℚ.
The single-precision `sqrt` is modelled as an explicit function
parameter `sqrtq : ℚ → ℚ`; theorems that depend on its behaviour take
hypotheses stating what they need of it at the relevant argument.
-/

namespace Lines

/-- Embedding of `msh_vec2_t`: two-component vector. -/
structure Vec2 where
  x : ℚ
  y : ℚ
  deriving DecidableEq, Repr

/-- Embedding of `msh_vec3_t`: three-component vector. -/
structure Vec3 where
  x : ℚ
  y : ℚ
  z : ℚ
  deriving DecidableEq, Repr

/-- Embedding of `msh_vec4_t`: four-component vector. -/
structure Vec4 where
  x : ℚ
  y : ℚ
  z : ℚ
  w : ℚ
  deriving DecidableEq, Repr

/-- Embedding of `msh_mat4_t`: 4x4 matrix, column-major (`c0` holds `data[0..3]`, etc.). -/
structure Mat4 where
  c0 : Vec4
  c1 : Vec4
  c2 : Vec4
  c3 : Vec4
  deriving DecidableEq, Repr

/-- Embedding of `vertex_t` (src/main.c): input polyline vertex.  `cpu_lines_expand`
accesses `col` through all four components `.x .y .z .w`, so the colour is
embedded as an RGBA `Vec4` (as the data model of the spec also states). -/
structure vertex_t where
  pos : Vec3
  width : ℚ
  col : Vec4
  deriving DecidableEq, Repr

/-- Embedding of `cpu_lines_vertex_t` (src/cpu_lines.h): output record. -/
structure cpu_lines_vertex_t where
  clip_pos : Vec4
  col : Vec4
  line_params : Vec4
  deriving DecidableEq, Repr

/-- Embedding of `msh_vec2_sub`. -/
def msh_vec2_sub (a b : Vec2) : Vec2 := ⟨a.x - b.x, a.y - b.y⟩

/-- Embedding of `msh_vec2_mul` (componentwise). -/
def msh_vec2_mul (a b : Vec2) : Vec2 := ⟨a.x * b.x, a.y * b.y⟩

/-- Embedding of `msh_vec2_scalar_div`: computes the reciprocal once and multiplies. -/
def msh_vec2_scalar_div (v : Vec2) (s : ℚ) : Vec2 :=
  let denom := 1 / s
  ⟨v.x * denom, v.y * denom⟩

/-- Squared two-norm `v.x*v.x + v.y*v.y`, the argument handed to `sqrt`
by both `msh_vec2_normalize` and `msh_vec2_norm`. -/
def norm_sq (v : Vec2) : ℚ := v.x * v.x + v.y * v.y

/-- Embedding of `msh_vec2_normalize`, with the float `sqrtf` supplied as `sqrtq`. -/
def msh_vec2_normalize (sqrtq : ℚ → ℚ) (v : Vec2) : Vec2 :=
  let denom := 1 / sqrtq (norm_sq v)
  ⟨v.x * denom, v.y * denom⟩

/-- Embedding of `msh_vec2_norm`, with the float `sqrt` supplied as `sqrtq`. -/
def msh_vec2_norm (sqrtq : ℚ → ℚ) (v : Vec2) : ℚ := sqrtq (norm_sq v)

/-- Embedding of `msh_max` (src/extern/msh_std.h): `((a) > (b) ? (a) : (b))`. -/
def msh_max (a b : ℚ) : ℚ := if a > b then a else b

/-- Embedding of `msh_min` (src/extern/msh_std.h): `((a) < (b) ? (a) : (b))`. -/
def msh_min (a b : ℚ) : ℚ := if a < b then a else b

/-- Embedding of `msh_mat4_vec4_mul` (column-major). -/
def msh_mat4_vec4_mul (m : Mat4) (v : Vec4) : Vec4 :=
  ⟨m.c0.x * v.x + m.c1.x * v.y + m.c2.x * v.z + m.c3.x * v.w,
   m.c0.y * v.x + m.c1.y * v.y + m.c2.y * v.z + m.c3.y * v.w,
   m.c0.z * v.x + m.c1.z * v.y + m.c2.z * v.z + m.c3.z * v.w,
   m.c0.w * v.x + m.c1.w * v.y + m.c2.w * v.z + m.c3.w * v.w⟩

section ExpandBody

/-!
The body of the `for` loop of `cpu_lines_expand` (src/cpu_lines.h lines
43-123), one definition per intermediate value, in source order.
`v0`/`v1` are `*src_v0`/`*src_v1`, the current pair of input vertices.
-/

variable (sqrtq : ℚ → ℚ) (mvp : Mat4) (viewport_size aa_radius : Vec2)
variable (v0 v1 : vertex_t)

/-- Embedding of `clip_a0` / `clip_b0` before reassignment: `mvp * (pos, 1)`. -/
def clip0 (mvp : Mat4) (v : vertex_t) : Vec4 :=
  msh_mat4_vec4_mul mvp ⟨v.pos.x, v.pos.y, v.pos.z, 1⟩

/-- Embedding of `ndc_a` / `ndc_b`: perspective divide of the xy components. -/
def ndc0 (c : Vec4) : Vec2 := msh_vec2_scalar_div ⟨c.x, c.y⟩ c.w

/-- Embedding of `aspect_ratio = height / width`. -/
def aspect (viewport_size : Vec2) : ℚ := viewport_size.y / viewport_size.x

/-- Embedding of `line_vector = ndc_b - ndc_a`. -/
def line_vector : Vec2 :=
  msh_vec2_sub (ndc0 (clip0 mvp v1)) (ndc0 (clip0 mvp v0))

/-- Embedding of `viewport_line_vector = line_vector * viewport_size` (componentwise). -/
def viewport_line_vector : Vec2 :=
  msh_vec2_mul (line_vector mvp v0 v1) viewport_size

/-- The vector handed to `msh_vec2_normalize`:
`(line_vector.x, line_vector.y * aspect_ratio)`. -/
def dir_arg : Vec2 :=
  ⟨(line_vector mvp v0 v1).x, (line_vector mvp v0 v1).y * aspect viewport_size⟩

/-- Embedding of `dir = msh_vec2_normalize(dir_arg)`. -/
def dir : Vec2 := msh_vec2_normalize sqrtq (dir_arg mvp viewport_size v0 v1)

/-- Embedding of `extension_length = aa_radius.y`. -/
def extension_length (aa_radius : Vec2) : ℚ := aa_radius.y

/-- Embedding of `line_width_a = msh_max(1, src_v0->width) + aa_radius.x`. -/
def line_width_a (aa_radius : Vec2) (v0 : vertex_t) : ℚ :=
  msh_max 1 v0.width + aa_radius.x

/-- Embedding of `line_width_b = msh_max(1, src_v1->width) + aa_radius.x`. -/
def line_width_b (aa_radius : Vec2) (v1 : vertex_t) : ℚ :=
  msh_max 1 v1.width + aa_radius.x

/-- Embedding of `line_length = |viewport_line_vector| + 2 * extension_length`. -/
def line_length : ℚ :=
  msh_vec2_norm sqrtq (viewport_line_vector mvp viewport_size v0 v1) +
    2 * extension_length aa_radius

/-- Embedding of `normal = (-dir.y, dir.x)`. -/
def normal : Vec2 :=
  ⟨-(dir sqrtq mvp viewport_size v0 v1).y, (dir sqrtq mvp viewport_size v0 v1).x⟩

/-- Embedding of `normal_a = (line_width_a/width, line_width_a/height) * normal`. -/
def normal_a : Vec2 :=
  msh_vec2_mul
    ⟨line_width_a aa_radius v0 / viewport_size.x,
     line_width_a aa_radius v0 / viewport_size.y⟩
    (normal sqrtq mvp viewport_size v0 v1)

/-- Embedding of `normal_b = (line_width_b/width, line_width_b/height) * normal`. -/
def normal_b : Vec2 :=
  msh_vec2_mul
    ⟨line_width_b aa_radius v1 / viewport_size.x,
     line_width_b aa_radius v1 / viewport_size.y⟩
    (normal sqrtq mvp viewport_size v0 v1)

/-- Embedding of `extension = (extension_length/width, extension_length/height) * dir`. -/
def extension : Vec2 :=
  msh_vec2_mul
    ⟨extension_length aa_radius / viewport_size.x,
     extension_length aa_radius / viewport_size.y⟩
    (dir sqrtq mvp viewport_size v0 v1)

/-- Embedding of `clip_a1` as assigned on lines 74-77. -/
def clip_a1 : Vec4 :=
  ⟨((ndc0 (clip0 mvp v0)).x - (normal_a sqrtq mvp viewport_size aa_radius v0 v1).x -
      (extension sqrtq mvp viewport_size aa_radius v0 v1).x) * (clip0 mvp v0).w,
   ((ndc0 (clip0 mvp v0)).y - (normal_a sqrtq mvp viewport_size aa_radius v0 v1).y -
      (extension sqrtq mvp viewport_size aa_radius v0 v1).y) * (clip0 mvp v0).w,
   (clip0 mvp v0).z,
   (clip0 mvp v0).w⟩

/-- Embedding of `clip_a0` as reassigned on lines 78-81. -/
def clip_a0 : Vec4 :=
  ⟨((ndc0 (clip0 mvp v0)).x + (normal_a sqrtq mvp viewport_size aa_radius v0 v1).x -
      (extension sqrtq mvp viewport_size aa_radius v0 v1).x) * (clip0 mvp v0).w,
   ((ndc0 (clip0 mvp v0)).y + (normal_a sqrtq mvp viewport_size aa_radius v0 v1).y -
      (extension sqrtq mvp viewport_size aa_radius v0 v1).y) * (clip0 mvp v0).w,
   (clip0 mvp v0).z,
   (clip0 mvp v0).w⟩

/-- Embedding of `clip_b1` as assigned on lines 83-86. -/
def clip_b1 : Vec4 :=
  ⟨((ndc0 (clip0 mvp v1)).x - (normal_b sqrtq mvp viewport_size aa_radius v0 v1).x +
      (extension sqrtq mvp viewport_size aa_radius v0 v1).x) * (clip0 mvp v1).w,
   ((ndc0 (clip0 mvp v1)).y - (normal_b sqrtq mvp viewport_size aa_radius v0 v1).y +
      (extension sqrtq mvp viewport_size aa_radius v0 v1).y) * (clip0 mvp v1).w,
   (clip0 mvp v1).z,
   (clip0 mvp v1).w⟩

/-- Embedding of `clip_b0` as reassigned on lines 87-90. -/
def clip_b0 : Vec4 :=
  ⟨((ndc0 (clip0 mvp v1)).x + (normal_b sqrtq mvp viewport_size aa_radius v0 v1).x +
      (extension sqrtq mvp viewport_size aa_radius v0 v1).x) * (clip0 mvp v1).w,
   ((ndc0 (clip0 mvp v1)).y + (normal_b sqrtq mvp viewport_size aa_radius v0 v1).y +
      (extension sqrtq mvp viewport_size aa_radius v0 v1).y) * (clip0 mvp v1).w,
   (clip0 mvp v1).z,
   (clip0 mvp v1).w⟩

/-- Embedding of `alpha_a = msh_min( src_v0->col.w * src_v0->width, 1.0f )` (line 93,
exactly as in the source, including its use of `src_v0`). -/
def alpha_a (v0 : vertex_t) : ℚ := msh_min (v0.col.w * v0.width) 1

/-- Embedding of `alpha_b = msh_min( src_v0->col.w * src_v1->width, 1.0f )` (line 94,
exactly as in the source: the alpha is read from `src_v0`). -/
def alpha_b (v0 v1 : vertex_t) : ℚ := msh_min (v0.col.w * v1.width) 1

/-- Output record `(dst + 0)` (lines 98-100). -/
def dst0 : cpu_lines_vertex_t :=
  ⟨clip_a0 sqrtq mvp viewport_size aa_radius v0 v1,
   ⟨v0.col.x, v0.col.y, v0.col.z, alpha_a v0⟩,
   ⟨-1, -1, line_width_a aa_radius v0,
    (1 / 2) * line_length sqrtq mvp viewport_size aa_radius v0 v1⟩⟩

/-- Output record `(dst + 1)` (lines 102-104). -/
def dst1 : cpu_lines_vertex_t :=
  ⟨clip_a1 sqrtq mvp viewport_size aa_radius v0 v1,
   ⟨v0.col.x, v0.col.y, v0.col.z, alpha_a v0⟩,
   ⟨1, -1, line_width_a aa_radius v0,
    (1 / 2) * line_length sqrtq mvp viewport_size aa_radius v0 v1⟩⟩

/-- Output record `(dst + 2)` (lines 106-108).  Note the source emits
`src_v1->col.x` for BOTH the red and the green channel. -/
def dst2 : cpu_lines_vertex_t :=
  ⟨clip_b0 sqrtq mvp viewport_size aa_radius v0 v1,
   ⟨v1.col.x, v1.col.x, v1.col.z, alpha_b v0 v1⟩,
   ⟨-1, 1, line_width_b aa_radius v1,
    (1 / 2) * line_length sqrtq mvp viewport_size aa_radius v0 v1⟩⟩

/-- Output record `(dst + 3)` (lines 110-112). -/
def dst3 : cpu_lines_vertex_t :=
  ⟨clip_a1 sqrtq mvp viewport_size aa_radius v0 v1,
   ⟨v0.col.x, v0.col.y, v0.col.z, alpha_a v0⟩,
   ⟨1, -1, line_width_a aa_radius v0,
    (1 / 2) * line_length sqrtq mvp viewport_size aa_radius v0 v1⟩⟩

/-- Output record `(dst + 4)` (lines 114-116; `src_v1->col.x` twice, as in
the source). -/
def dst4 : cpu_lines_vertex_t :=
  ⟨clip_b0 sqrtq mvp viewport_size aa_radius v0 v1,
   ⟨v1.col.x, v1.col.x, v1.col.z, alpha_b v0 v1⟩,
   ⟨-1, 1, line_width_b aa_radius v1,
    (1 / 2) * line_length sqrtq mvp viewport_size aa_radius v0 v1⟩⟩

/-- Output record `(dst + 5)` (lines 118-120; `src_v1->col.x` twice, as in
the source). -/
def dst5 : cpu_lines_vertex_t :=
  ⟨clip_b1 sqrtq mvp viewport_size aa_radius v0 v1,
   ⟨v1.col.x, v1.col.x, v1.col.z, alpha_b v0 v1⟩,
   ⟨1, 1, line_width_b aa_radius v1,
    (1 / 2) * line_length sqrtq mvp viewport_size aa_radius v0 v1⟩⟩

/-- One iteration of the expansion loop: the six records written for the
segment `(v0, v1)`, in write order. -/
def expand_segment : List cpu_lines_vertex_t :=
  [dst0 sqrtq mvp viewport_size aa_radius v0 v1,
   dst1 sqrtq mvp viewport_size aa_radius v0 v1,
   dst2 sqrtq mvp viewport_size aa_radius v0 v1,
   dst3 sqrtq mvp viewport_size aa_radius v0 v1,
   dst4 sqrtq mvp viewport_size aa_radius v0 v1,
   dst5 sqrtq mvp viewport_size aa_radius v0 v1]

end ExpandBody

/-- The pairing performed by the loop header
`for (int i = 0; i < line_buf_len; i += 2)` with reads `line_buf[i]`,
`line_buf[i+1]`: consecutive disjoint pairs.  When the length is odd the
final iteration still runs and its second read falls one element past the
end of the buffer; that out-of-bounds value is modelled by the
parameter `oob`. -/
def pair_up (oob : vertex_t) : List vertex_t → List (vertex_t × vertex_t)
  | [] => []
  | [a] => [(a, oob)]
  | a :: b :: rest => (a, b) :: pair_up oob rest

/-- The input-buffer indices read by the loop, in access order: the loop
runs for `i = 0, 2, ...` while `i < L` and reads indices `i` and `i + 1`. -/
def read_indices : ℕ → List ℕ
  | 0 => []
  | 1 => [0, 1]
  | n + 2 => 0 :: 1 :: (read_indices n).map (· + 2)

/-- Embedding of `cpu_lines_expand` (src/cpu_lines.h lines 25-125).  State passed
explicitly: `quad_buf` and `quad_buf_len0` are the prior contents of the
output buffer of the caller and of `*quad_buf_len`; the result is their final
contents.  The guard multiplies the `uint32_t` length by 3, hence the
`% 2 ^ 32`.  On the success path the function writes the expanded records
from index 0 on and leaves the remaining slots as they were. -/
def cpu_lines_expand (sqrtq : ℚ → ℚ) (mvp : Mat4) (viewport_size aa_radius : Vec2)
    (oob : vertex_t) (line_buf : List vertex_t)
    (quad_buf : List cpu_lines_vertex_t) (quad_buf_len0 quad_buf_cap : ℕ) :
    List cpu_lines_vertex_t × ℕ :=
  if line_buf.length * 3 % 2 ^ 32 ≥ quad_buf_cap then
    (quad_buf, quad_buf_len0)
  else
    let out := (pair_up oob line_buf).flatMap
      (fun p => expand_segment sqrtq mvp viewport_size aa_radius p.1 p.2)
    (out ++ quad_buf.drop out.length, out.length)

/-!
## Spec-side definitions

Definitions written from the words of the specification and of the
claims, to be compared with the embedding above (refinement claims
C1, C5, C6, C9).
-/

/-- Spec: NDC of a clip-space position, `clip.xy / clip.w`. -/
def spec_ndc (c : Vec4) : Vec2 := ⟨c.x / c.w, c.y / c.w⟩

/-- Spec: the aspect-corrected direction before normalization,
`((ndcB-ndcA).x, (ndcB-ndcA).y * height/width)`. -/
def spec_dir_vec (mvp : Mat4) (viewport_size : Vec2) (v0 v1 : vertex_t) : Vec2 :=
  ⟨(spec_ndc (clip0 mvp v1)).x - (spec_ndc (clip0 mvp v0)).x,
   ((spec_ndc (clip0 mvp v1)).y - (spec_ndc (clip0 mvp v0)).y) *
     (viewport_size.y / viewport_size.x)⟩

/-- Spec: `dir = normalize((ndcB-ndcA).x, (ndcB-ndcA).y * height/width)`,
with the same square root `sqrtq` that models `sqrtf`. -/
def spec_dir (sqrtq : ℚ → ℚ) (mvp : Mat4) (viewport_size : Vec2)
    (v0 v1 : vertex_t) : Vec2 :=
  let d := spec_dir_vec mvp viewport_size v0 v1
  let n := sqrtq (d.x * d.x + d.y * d.y)
  ⟨d.x / n, d.y / n⟩

/-- Spec: effective half-width `wE = max(1, E.width) + aaRadius.x`. -/
def spec_half_width (aa_radius : Vec2) (v : vertex_t) : ℚ :=
  max 1 v.width + aa_radius.x

/-- Spec: `normalE = (wE/width, wE/height)` componentwise-times
`normal = (-dir.y, dir.x)`. -/
def spec_normal_e (sqrtq : ℚ → ℚ) (mvp : Mat4) (viewport_size aa_radius : Vec2)
    (v0 v1 : vertex_t) (e : vertex_t) : Vec2 :=
  let d := spec_dir sqrtq mvp viewport_size v0 v1
  let we := spec_half_width aa_radius e
  ⟨(we / viewport_size.x) * (-d.y), (we / viewport_size.y) * d.x⟩

/-- Spec: `extension = (aaRadius.y/width, aaRadius.y/height)`
componentwise-times `dir`. -/
def spec_extension (sqrtq : ℚ → ℚ) (mvp : Mat4) (viewport_size aa_radius : Vec2)
    (v0 v1 : vertex_t) : Vec2 :=
  let d := spec_dir sqrtq mvp viewport_size v0 v1
  ⟨(aa_radius.y / viewport_size.x) * d.x, (aa_radius.y / viewport_size.y) * d.y⟩

/-- Spec (claim C1): the output clip position
`((ndcE + s_n*normalE + s_e*extension) * clipE.w, clipE.z, clipE.w)` for
endpoint `e` with normal sign `sn`; the extension sign is `-1` at `A`
(`pickB = false`) and `+1` at `B` (`pickB = true`). -/
def spec_corner (sqrtq : ℚ → ℚ) (mvp : Mat4) (viewport_size aa_radius : Vec2)
    (v0 v1 : vertex_t) (pickB : Bool) (sn : ℚ) : Vec4 :=
  let e := if pickB then v1 else v0
  let clipE := clip0 mvp e
  let ndcE := spec_ndc clipE
  let ne := spec_normal_e sqrtq mvp viewport_size aa_radius v0 v1 e
  let ext := spec_extension sqrtq mvp viewport_size aa_radius v0 v1
  let se : ℚ := if pickB then 1 else -1
  ⟨(ndcE.x + sn * ne.x + se * ext.x) * clipE.w,
   (ndcE.y + sn * ne.y + se * ext.y) * clipE.w,
   clipE.z, clipE.w⟩

/-- Spec (claim C5): `(ndcB - ndcA)` componentwise-times `viewportSize`. -/
def spec_len_vec (mvp : Mat4) (viewport_size : Vec2) (v0 v1 : vertex_t) : Vec2 :=
  ⟨((spec_ndc (clip0 mvp v1)).x - (spec_ndc (clip0 mvp v0)).x) * viewport_size.x,
   ((spec_ndc (clip0 mvp v1)).y - (spec_ndc (clip0 mvp v0)).y) * viewport_size.y⟩

/-- Spec (claim C5): `halfLength = 0.5 * (norm((ndcB - ndcA)
componentwise-times viewportSize) + 2 * aaRadius.y)`. -/
def spec_half_length (sqrtq : ℚ → ℚ) (mvp : Mat4) (viewport_size aa_radius : Vec2)
    (v0 v1 : vertex_t) : ℚ :=
  (1 / 2) * (sqrtq (norm_sq (spec_len_vec mvp viewport_size v0 v1)) +
    2 * aa_radius.y)

/-- Spec (claims C5/C6): per-endpoint attenuated alpha, that
input alpha multiplied by `min(1, requestedWidth)`. -/
def spec_alpha (v : vertex_t) : ℚ := v.col.w * min 1 v.width

/-- NDC projection used to state winding (claim C8) and congruence
(claim C9): clip xy divided by clip w. -/
def ndc_of (c : Vec4) : Vec2 := ⟨c.x / c.w, c.y / c.w⟩

/-- Twice the signed area of the triangle `(p, q, r)`. -/
def signed_area2 (p q r : Vec2) : ℚ :=
  (q.x - p.x) * (r.y - p.y) - (q.y - p.y) * (r.x - p.x)

/-- Spec (amended claim C9): a corner offset from its endpoint measured in
viewport pixels, `viewportSize` componentwise-times `(corner - base)`. -/
def pixel_off (viewport_size p base : Vec2) : Vec2 :=
  ⟨viewport_size.x * (p.x - base.x), viewport_size.y * (p.y - base.y)⟩

/-!
## Sample concrete inputs for counterexamples and witnesses
-/

/-- Identity matrix. -/
def mId : Mat4 := ⟨⟨1, 0, 0, 0⟩, ⟨0, 1, 0, 0⟩, ⟨0, 0, 1, 0⟩, ⟨0, 0, 0, 1⟩⟩

/-- Sample vertex at the origin, width 1, opaque black. -/
def sA : vertex_t := ⟨⟨0, 0, 0⟩, 1, ⟨0, 0, 0, 1⟩⟩

/-- Sample vertex at `(1, 0, 0)`, width 1, opaque black. -/
def sB : vertex_t := ⟨⟨1, 0, 0⟩, 1, ⟨0, 0, 0, 1⟩⟩

/-- Sample vertex for the alpha claim: width 4, alpha 1/2. -/
def sA6 : vertex_t := ⟨⟨0, 0, 0⟩, 4, ⟨0, 0, 0, 1 / 2⟩⟩

/-- Sample vertex for the alpha claim: width 1, alpha 1/4. -/
def sB6 : vertex_t := ⟨⟨1, 0, 0⟩, 1, ⟨0, 0, 0, 1 / 4⟩⟩

/-- Sample vertex for the colour claim: colour `(1/5, 9/10, 2/5, 1)`. -/
def sB7 : vertex_t := ⟨⟨1, 0, 0⟩, 1, ⟨1 / 5, 9 / 10, 2 / 5, 1⟩⟩

/-- Sample vertex for the scale claim: width 1 at the origin. -/
def sA9 : vertex_t := ⟨⟨0, 0, 0⟩, 1, ⟨0, 0, 0, 1⟩⟩

/-!
## Structural lemmas
-/

/-- Lemma: `msh_max` agrees with `max`. -/
theorem msh_max_eq (a b : ℚ) : msh_max a b = max a b := by
  unfold msh_max
  rcases le_or_lt a b with h | h
  · simp [not_lt.mpr h, max_eq_right h]
  · simp [h, max_eq_left h.le]

/-- Lemma: `msh_min` agrees with `min`. -/
theorem msh_min_eq (a b : ℚ) : msh_min a b = min a b := by
  unfold msh_min
  rcases le_or_lt b a with h | h
  · simp [not_lt.mpr h, min_eq_right h]
  · simp [h, min_eq_left h.le]

/-- Each loop iteration emits six records. -/
theorem expand_segment_length (sqrtq : ℚ → ℚ) (mvp : Mat4)
    (viewport_size aa_radius : Vec2) (v0 v1 : vertex_t) :
    (expand_segment sqrtq mvp viewport_size aa_radius v0 v1).length = 6 := rfl

/-- The loop runs `⌈L/2⌉` iterations. -/
theorem pair_up_length (oob : vertex_t) (l : List vertex_t) :
    (pair_up oob l).length = (l.length + 1) / 2 := by
  induction l using pair_up.induct oob with
  | case1 => simp [pair_up]
  | case2 a => simp [pair_up]
  | case3 a b rest ih => simp [pair_up, ih]; omega

/-- The reads performed by the loop are exactly the buffer values at
`read_indices`, with the out-of-bounds read (odd length, last iteration)
yielding the modelled out-of-bounds value `oob`. -/
theorem pair_up_reads (oob : vertex_t) (l : List vertex_t) :
    (pair_up oob l).flatMap (fun p => [p.1, p.2]) =
      (read_indices l.length).map (fun j => l.getD j oob) := by
  induction l using pair_up.induct oob with
  | case1 => simp [pair_up, read_indices]
  | case2 a => simp [pair_up, read_indices]
  | case3 a b rest ih =>
      simp only [pair_up, List.flatMap_cons, List.length_cons]
      have h2 : rest.length + 1 + 1 = rest.length + 2 := by omega
      rw [h2]
      simp only [read_indices, List.map_cons, List.map_map]
      simp only [List.getD_cons_zero, List.getD_cons_succ]
      rw [ih]
      congr 1

/-- A loop of `k` iterations emits `6 * k` records in total. -/
theorem flatMap_segments_length (sqrtq : ℚ → ℚ) (mvp : Mat4)
    (viewport_size aa_radius : Vec2) (oob : vertex_t) (l : List vertex_t) :
    ((pair_up oob l).flatMap
        (fun p => expand_segment sqrtq mvp viewport_size aa_radius p.1 p.2)).length =
      6 * ((l.length + 1) / 2) := by
  have h : ∀ L : List (vertex_t × vertex_t),
      (L.flatMap
          (fun p => expand_segment sqrtq mvp viewport_size aa_radius p.1 p.2)).length =
        6 * L.length := by
    intro L
    induction L with
    | nil => simp
    | cons p t ih =>
        simp only [List.flatMap_cons, List.length_append, List.length_cons, ih,
          expand_segment_length]
        omega
  rw [h, pair_up_length]

/-!
## Correspondence between code intermediates and spec intermediates
-/

/-- The vector the code normalizes is the aspect-corrected spec
direction vector. -/
theorem dir_arg_eq_spec (mvp : Mat4) (viewport_size : Vec2) (v0 v1 : vertex_t) :
    dir_arg mvp viewport_size v0 v1 = spec_dir_vec mvp viewport_size v0 v1 := by
  simp only [dir_arg, spec_dir_vec, line_vector, msh_vec2_sub, ndc0,
    msh_vec2_scalar_div, spec_ndc, aspect, Vec2.mk.injEq]
  constructor <;> ring

/-- The `dir` of the code agrees with the `dir` of the spec. -/
theorem dir_eq_spec (sqrtq : ℚ → ℚ) (mvp : Mat4) (viewport_size : Vec2)
    (v0 v1 : vertex_t) :
    dir sqrtq mvp viewport_size v0 v1 = spec_dir sqrtq mvp viewport_size v0 v1 := by
  simp only [dir, msh_vec2_normalize, spec_dir]
  rw [dir_arg_eq_spec]
  simp only [norm_sq, Vec2.mk.injEq]
  constructor <;> ring

/-- The `line_width_a` of the code is the spec effective half-width of `A`. -/
theorem line_width_a_eq_spec (aa_radius : Vec2) (v0 : vertex_t) :
    line_width_a aa_radius v0 = spec_half_width aa_radius v0 := by
  simp only [line_width_a, spec_half_width, msh_max_eq]

/-- The `line_width_b` of the code is the spec effective half-width of `B`. -/
theorem line_width_b_eq_spec (aa_radius : Vec2) (v1 : vertex_t) :
    line_width_b aa_radius v1 = spec_half_width aa_radius v1 := by
  simp only [line_width_b, spec_half_width, msh_max_eq]

/-- The `viewport_line_vector` of the code is the spec pixel-space segment
vector. -/
theorem viewport_line_vector_eq_spec (mvp : Mat4) (viewport_size : Vec2)
    (v0 v1 : vertex_t) :
    viewport_line_vector mvp viewport_size v0 v1 =
      spec_len_vec mvp viewport_size v0 v1 := by
  simp only [viewport_line_vector, msh_vec2_mul, line_vector, msh_vec2_sub,
    ndc0, msh_vec2_scalar_div, spec_ndc, spec_len_vec, Vec2.mk.injEq]
  constructor <;> ring

/-- Half the `line_length` of the code is the spec half-length. -/
theorem half_line_length_eq_spec (sqrtq : ℚ → ℚ) (mvp : Mat4)
    (viewport_size aa_radius : Vec2) (v0 v1 : vertex_t) :
    (1 / 2 : ℚ) * line_length sqrtq mvp viewport_size aa_radius v0 v1 =
      spec_half_length sqrtq mvp viewport_size aa_radius v0 v1 := by
  simp only [line_length, msh_vec2_norm, extension_length, spec_half_length]
  rw [viewport_line_vector_eq_spec]

/-!
## Claims
-/

/-- C2: for every polyline of `2n` vertices whose required output is
within the destination capacity, `cpu_lines_expand` writes exactly `6n`
output records — the written prefix is the six-per-segment expansion —
reports a written count of `6n`, and leaves the rest of the buffer as it
was. -/
theorem C2_six_records_per_segment (sqrtq : ℚ → ℚ) (mvp : Mat4)
    (viewport_size aa_radius : Vec2) (oob : vertex_t) (line_buf : List vertex_t)
    (quad_buf : List cpu_lines_vertex_t) (quad_buf_len0 quad_buf_cap : ℕ)
    (n : ℕ) (hlen : line_buf.length = 2 * n)
    (hcap : 3 * line_buf.length < quad_buf_cap)
    (hov : 3 * line_buf.length < 2 ^ 32) :
    (cpu_lines_expand sqrtq mvp viewport_size aa_radius oob line_buf
        quad_buf quad_buf_len0 quad_buf_cap).2 = 6 * n ∧
    (cpu_lines_expand sqrtq mvp viewport_size aa_radius oob line_buf
        quad_buf quad_buf_len0 quad_buf_cap).1.take (6 * n) =
      (pair_up oob line_buf).flatMap
        (fun p => expand_segment sqrtq mvp viewport_size aa_radius p.1 p.2) ∧
    (cpu_lines_expand sqrtq mvp viewport_size aa_radius oob line_buf
        quad_buf quad_buf_len0 quad_buf_cap).1.drop (6 * n) =
      quad_buf.drop (6 * n) := by
  have hguard : ¬ line_buf.length * 3 % 2 ^ 32 ≥ quad_buf_cap := by omega
  have hout : ((pair_up oob line_buf).flatMap
      (fun p => expand_segment sqrtq mvp viewport_size aa_radius p.1 p.2)).length =
        6 * n := by
    rw [flatMap_segments_length, hlen]
    omega
  unfold cpu_lines_expand
  rw [if_neg hguard]
  refine ⟨hout, ?_, ?_⟩
  · rw [← hout, List.take_left]
  · rw [← hout, List.drop_left]

/-- C2 witness: a two-vertex polyline (n = 1) with capacity 7. -/
theorem C2_six_records_per_segment_witness :
    (cpu_lines_expand (fun q => q) mId ⟨1, 1⟩ ⟨0, 0⟩ sA [sA, sB] [] 0 7).2 = 6 * 1 ∧
    (cpu_lines_expand (fun q => q) mId ⟨1, 1⟩ ⟨0, 0⟩ sA [sA, sB] [] 0 7).1.take (6 * 1) =
      (pair_up sA [sA, sB]).flatMap
        (fun p => expand_segment (fun q => q) mId ⟨1, 1⟩ ⟨0, 0⟩ p.1 p.2) ∧
    (cpu_lines_expand (fun q => q) mId ⟨1, 1⟩ ⟨0, 0⟩ sA [sA, sB] [] 0 7).1.drop (6 * 1) =
      ([] : List cpu_lines_vertex_t).drop (6 * 1) :=
  C2_six_records_per_segment (fun q => q) mId ⟨1, 1⟩ ⟨0, 0⟩ sA [sA, sB] [] 0 7 1
    (by simp) (by simp) (by norm_num)

/-- C3 counterexample: an input whose output exactly fills the capacity
(`L = 2`, `3 * L = 6 = quad_buf_cap`) is rejected by the guard — the
function writes nothing and the count output stays 0 — whereas the claim
says such an input succeeds and writes all `3 * L = 6` vertices. -/
theorem C3_counterexample :
    (cpu_lines_expand (fun q => q) mId ⟨1, 1⟩ ⟨0, 0⟩ sA [sA, sB] [] 0 6).2 = 0 ∧
    (cpu_lines_expand (fun q => q) mId ⟨1, 1⟩ ⟨0, 0⟩ sA [sA, sB] [] 0 6).2 ≠ 3 * 2 := by
  constructor
  · unfold cpu_lines_expand
    rw [if_pos (by simp)]
  · unfold cpu_lines_expand
    rw [if_pos (by simp)]
    omega

/-- C3 amended: the guard comparison is `>=`, not `>`: for an input of
length `L` (no `uint32` overflow in `L * 3`), the call fails — returning
the buffer and count unchanged — if and only if `3 * L ≥ quad_buf_cap`;
when `3 * L < quad_buf_cap` it writes all `6 * ⌈L/2⌉` records and reports
that count.  An input whose output exactly fills the capacity is
rejected. -/
theorem C3_amended_guard_is_geq (sqrtq : ℚ → ℚ) (mvp : Mat4)
    (viewport_size aa_radius : Vec2) (oob : vertex_t) (line_buf : List vertex_t)
    (quad_buf : List cpu_lines_vertex_t) (quad_buf_len0 quad_buf_cap : ℕ)
    (hov : line_buf.length * 3 < 2 ^ 32) :
    (quad_buf_cap ≤ 3 * line_buf.length →
      cpu_lines_expand sqrtq mvp viewport_size aa_radius oob line_buf
        quad_buf quad_buf_len0 quad_buf_cap = (quad_buf, quad_buf_len0)) ∧
    (3 * line_buf.length < quad_buf_cap →
      (cpu_lines_expand sqrtq mvp viewport_size aa_radius oob line_buf
          quad_buf quad_buf_len0 quad_buf_cap).2 =
        6 * ((line_buf.length + 1) / 2) ∧
      (cpu_lines_expand sqrtq mvp viewport_size aa_radius oob line_buf
          quad_buf quad_buf_len0 quad_buf_cap).1.drop
            (6 * ((line_buf.length + 1) / 2)) =
        quad_buf.drop (6 * ((line_buf.length + 1) / 2))) := by
  constructor
  · intro hcap
    unfold cpu_lines_expand
    rw [if_pos (by omega)]
  · intro hcap
    have hguard : ¬ line_buf.length * 3 % 2 ^ 32 ≥ quad_buf_cap := by omega
    have hout := flatMap_segments_length sqrtq mvp viewport_size aa_radius oob line_buf
    unfold cpu_lines_expand
    rw [if_neg hguard]
    refine ⟨hout, ?_⟩
    · rw [← hout, List.drop_left]

/-- C3 amended witness: capacity 6 rejects a 2-vertex input
(`3 * 2 ≥ 6`), capacity 7 accepts it and writes 6 records. -/
theorem C3_amended_guard_is_geq_witness :
    ((6 : ℕ) ≤ 3 * 2 ∧
      cpu_lines_expand (fun q => q) mId ⟨1, 1⟩ ⟨0, 0⟩ sA [sA, sB] [] 0 6 = ([], 0)) ∧
    (3 * 2 < 7 ∧
      (cpu_lines_expand (fun q => q) mId ⟨1, 1⟩ ⟨0, 0⟩ sA [sA, sB] [] 0 7).2 =
        6 * ((2 + 1) / 2)) := by
  have h6 := C3_amended_guard_is_geq (fun q => q) mId ⟨1, 1⟩ ⟨0, 0⟩ sA [sA, sB]
    [] 0 6 (by norm_num)
  have h7 := C3_amended_guard_is_geq (fun q => q) mId ⟨1, 1⟩ ⟨0, 0⟩ sA [sA, sB]
    [] 0 7 (by norm_num)
  exact ⟨⟨by norm_num, h6.1 (by norm_num)⟩,
         by norm_num, (h7.2 (by norm_num)).1⟩

/-- C4 counterexample: on a capacity failure the function returns before
touching `*quad_buf_len`, so the count output keeps its prior value
(here 7) instead of the 0 the claim states. -/
theorem C4_counterexample :
    (cpu_lines_expand (fun q => q) mId ⟨1, 1⟩ ⟨0, 0⟩ sA [sA, sB] [] 7 0).2 = 7 ∧
    (7 : ℕ) ≠ 0 := by
  constructor
  · unfold cpu_lines_expand
    rw [if_pos (by simp)]
  · omega

/-- C4 amended: when the capacity guard fires, `cpu_lines_expand`
performs zero writes to the output vertex buffer (every slot retains its
prior contents) and also leaves the written-count output unchanged at its
prior value (its sole caller initialises that value to zero, so the
caller observes a zero count). -/
theorem C4_amended_failure_leaves_state (sqrtq : ℚ → ℚ) (mvp : Mat4)
    (viewport_size aa_radius : Vec2) (oob : vertex_t) (line_buf : List vertex_t)
    (quad_buf : List cpu_lines_vertex_t) (quad_buf_len0 quad_buf_cap : ℕ)
    (hguard : quad_buf_cap ≤ line_buf.length * 3 % 2 ^ 32) :
    cpu_lines_expand sqrtq mvp viewport_size aa_radius oob line_buf
      quad_buf quad_buf_len0 quad_buf_cap = (quad_buf, quad_buf_len0) := by
  unfold cpu_lines_expand
  rw [if_pos hguard]

/-- C4 amended witness: a failing call with a nonempty prior buffer and
prior count 5 returns both unchanged. -/
theorem C4_amended_failure_leaves_state_witness :
    cpu_lines_expand (fun q => q) mId ⟨1, 1⟩ ⟨0, 0⟩ sA [sA, sB]
      [⟨⟨1, 2, 3, 4⟩, ⟨5, 6, 7, 8⟩, ⟨9, 10, 11, 12⟩⟩] 5 3 =
      ([⟨⟨1, 2, 3, 4⟩, ⟨5, 6, 7, 8⟩, ⟨9, 10, 11, 12⟩⟩], 5) :=
  C4_amended_failure_leaves_state (fun q => q) mId ⟨1, 1⟩ ⟨0, 0⟩ sA [sA, sB]
    [⟨⟨1, 2, 3, 4⟩, ⟨5, 6, 7, 8⟩, ⟨9, 10, 11, 12⟩⟩] 5 3 (by simp)

/-- C5: the `lineParams` of every emitted record is
`(u, v, effectiveHalfWidth, halfLength)` with `v = -1` on the three
A-end records and `+1` on the three B-end records, `u` differing in sign
across the two lateral sides, the effective half-width
`max(1, width) + aaRadius.x` of the endpoint of the record, and the common
half-length `0.5 * (norm((ndcB - ndcA) * viewportSize) + 2 * aaRadius.y)`,
identical across all six records. -/
theorem C5_line_params_spec (sqrtq : ℚ → ℚ) (mvp : Mat4)
    (viewport_size aa_radius : Vec2) (v0 v1 : vertex_t) :
    (expand_segment sqrtq mvp viewport_size aa_radius v0 v1).map
        (fun r => r.line_params) =
      [⟨-1, -1, spec_half_width aa_radius v0,
        spec_half_length sqrtq mvp viewport_size aa_radius v0 v1⟩,
       ⟨1, -1, spec_half_width aa_radius v0,
        spec_half_length sqrtq mvp viewport_size aa_radius v0 v1⟩,
       ⟨-1, 1, spec_half_width aa_radius v1,
        spec_half_length sqrtq mvp viewport_size aa_radius v0 v1⟩,
       ⟨1, -1, spec_half_width aa_radius v0,
        spec_half_length sqrtq mvp viewport_size aa_radius v0 v1⟩,
       ⟨-1, 1, spec_half_width aa_radius v1,
        spec_half_length sqrtq mvp viewport_size aa_radius v0 v1⟩,
       ⟨1, 1, spec_half_width aa_radius v1,
        spec_half_length sqrtq mvp viewport_size aa_radius v0 v1⟩] := by
  simp only [expand_segment, dst0, dst1, dst2, dst3, dst4, dst5,
    List.map_cons, List.map_nil, line_width_a_eq_spec, line_width_b_eq_spec,
    half_line_length_eq_spec]

/-- C6: the code computes `alpha_a = min(A.alpha * A.width, 1)` and
`alpha_b = min(A.alpha * B.width, 1)` — not the per-endpoint
`alpha * min(1, width)` of the spec (which the GPU backends implement).
At `A = (width 4, alpha 1/2)`, `B = (width 1, alpha 1/4)` the emitted
alphas are `1` on the A-end (spec: `1/2` — alpha brightened for a wide
line) and `1/2` on the B-end (spec: `1/4` — the alpha of A used for B). -/
theorem C6_alpha_code_bug :
    (expand_segment (fun q => q) mId ⟨1, 1⟩ ⟨0, 0⟩ sA6 sB6).map
        (fun r => r.col.w) =
      [1, 1, 1 / 2, 1, 1 / 2, 1 / 2] ∧
    spec_alpha sA6 = 1 / 2 ∧ spec_alpha sB6 = 1 / 4 ∧
    (1 : ℚ) ≠ 1 / 2 ∧ (1 / 2 : ℚ) ≠ 1 / 4 := by
  refine ⟨?_, by norm_num [spec_alpha, sA6], by norm_num [spec_alpha, sB6],
    by norm_num, by norm_num⟩
  simp only [expand_segment, dst0, dst1, dst2, dst3, dst4, dst5,
    List.map_cons, List.map_nil, alpha_a, alpha_b, msh_min, sA6, sB6]
  norm_num

/-- C7: the code emits `(col.x, col.x, col.z)` for the RGB of the three
B-end records (src/cpu_lines.h lines 107, 115, 119) — the green channel
receives the red value.  With `B.col = (1/5, 9/10, 2/5, 1)` the emitted
B-end green is `1/5 ≠ 9/10 = B.col.y`; the A-end records are correct. -/
theorem C7_color_code_bug :
    (expand_segment (fun q => q) mId ⟨1, 1⟩ ⟨0, 0⟩ sA sB7).map
        (fun r => (r.col.x, r.col.y, r.col.z)) =
      [(0, 0, 0), (0, 0, 0), (1 / 5, 1 / 5, 2 / 5), (0, 0, 0),
       (1 / 5, 1 / 5, 2 / 5), (1 / 5, 1 / 5, 2 / 5)] ∧
    sB7.col.y = 9 / 10 ∧ (1 / 5 : ℚ) ≠ 9 / 10 := by
  refine ⟨?_, by norm_num [sB7], by norm_num⟩
  simp only [expand_segment, dst0, dst1, dst2, dst3, dst4, dst5,
    List.map_cons, List.map_nil, sA, sB7]

/-- C10 counterexample: for the odd length 1 the only loop iteration
reads indices 0 and 1, and index 1 is not in bounds (`¬ 1 < 1`) — the
trailing unpaired vertex is consumed, not ignored. -/
theorem C10_counterexample : 1 ∈ read_indices 1 ∧ ¬ (1 < 1) := by
  constructor
  · simp [read_indices]
  · omega

/-- C10 amended: every input index the loop reads is below
`L + L % 2`: for even `L` all reads are in bounds (`< L`), but for odd
`L` the final iteration additionally reads index `L` itself, one past
the last valid index. -/
theorem C10_amended_reads (L : ℕ) :
    (∀ j ∈ read_indices L, j < L + L % 2) ∧
    (L % 2 = 1 → L ∈ read_indices L) := by
  induction L using read_indices.induct with
  | case1 => simp [read_indices]
  | case2 =>
      refine ⟨?_, ?_⟩
      · intro j hj
        simp [read_indices] at hj
        omega
      · intro _
        simp [read_indices]
  | case3 n ih =>
      refine ⟨?_, ?_⟩
      · intro j hj
        simp only [read_indices, List.mem_cons, List.mem_map] at hj
        rcases hj with h | h | ⟨j', hj', rfl⟩
        · omega
        · omega
        · have := ih.1 j' hj'
          omega
      · intro hodd
        have hn : n % 2 = 1 := by omega
        have := ih.2 hn
        simp only [read_indices, List.mem_cons, List.mem_map]
        right; right
        exact ⟨n, this, by omega⟩

/-- C10 amended witness: at `L = 3` every read index is below 4, and
index 3 (one past the end) is among the reads. -/
theorem C10_amended_reads_witness :
    (3 : ℕ) < 3 + 3 % 2 ∧ (3 : ℕ) ∈ read_indices 3 :=
  ⟨(C10_amended_reads 3).1 3 (by simp [read_indices]),
   (C10_amended_reads 3).2 (by omega)⟩

/-- Corner lemma: the reassigned `clip_a0` equals the spec corner of `A`
with normal sign `+1`. -/
theorem clip_a0_eq_spec (sqrtq : ℚ → ℚ) (mvp : Mat4)
    (viewport_size aa_radius : Vec2) (v0 v1 : vertex_t) :
    clip_a0 sqrtq mvp viewport_size aa_radius v0 v1 =
      spec_corner sqrtq mvp viewport_size aa_radius v0 v1 false 1 := by
  simp only [clip_a0, spec_corner, spec_normal_e, spec_extension,
    spec_half_width, spec_ndc, ndc0, msh_vec2_scalar_div, normal_a,
    msh_vec2_mul, normal, extension, extension_length, line_width_a,
    msh_max_eq, Bool.false_eq_true, if_false, ← dir_eq_spec, Vec4.mk.injEq]
  exact ⟨by ring, by ring, trivial, trivial⟩

/-- Corner lemma: `clip_a1` equals the spec corner of `A` with normal
sign `-1`. -/
theorem clip_a1_eq_spec (sqrtq : ℚ → ℚ) (mvp : Mat4)
    (viewport_size aa_radius : Vec2) (v0 v1 : vertex_t) :
    clip_a1 sqrtq mvp viewport_size aa_radius v0 v1 =
      spec_corner sqrtq mvp viewport_size aa_radius v0 v1 false (-1) := by
  simp only [clip_a1, spec_corner, spec_normal_e, spec_extension,
    spec_half_width, spec_ndc, ndc0, msh_vec2_scalar_div, normal_a,
    msh_vec2_mul, normal, extension, extension_length, line_width_a,
    msh_max_eq, Bool.false_eq_true, if_false, ← dir_eq_spec, Vec4.mk.injEq]
  exact ⟨by ring, by ring, trivial, trivial⟩

/-- Corner lemma: the reassigned `clip_b0` equals the spec corner of `B`
with normal sign `+1`. -/
theorem clip_b0_eq_spec (sqrtq : ℚ → ℚ) (mvp : Mat4)
    (viewport_size aa_radius : Vec2) (v0 v1 : vertex_t) :
    clip_b0 sqrtq mvp viewport_size aa_radius v0 v1 =
      spec_corner sqrtq mvp viewport_size aa_radius v0 v1 true 1 := by
  simp only [clip_b0, spec_corner, spec_normal_e, spec_extension,
    spec_half_width, spec_ndc, ndc0, msh_vec2_scalar_div, normal_b,
    msh_vec2_mul, normal, extension, extension_length, line_width_b,
    msh_max_eq, if_true, ← dir_eq_spec, Vec4.mk.injEq]
  exact ⟨by ring, by ring, trivial, trivial⟩

/-- Corner lemma: `clip_b1` equals the spec corner of `B` with normal
sign `-1`. -/
theorem clip_b1_eq_spec (sqrtq : ℚ → ℚ) (mvp : Mat4)
    (viewport_size aa_radius : Vec2) (v0 v1 : vertex_t) :
    clip_b1 sqrtq mvp viewport_size aa_radius v0 v1 =
      spec_corner sqrtq mvp viewport_size aa_radius v0 v1 true (-1) := by
  simp only [clip_b1, spec_corner, spec_normal_e, spec_extension,
    spec_half_width, spec_ndc, ndc0, msh_vec2_scalar_div, normal_b,
    msh_vec2_mul, normal, extension, extension_length, line_width_b,
    msh_max_eq, if_true, ← dir_eq_spec, Vec4.mk.injEq]
  exact ⟨by ring, by ring, trivial, trivial⟩

/-- Algebra: a vanishing combination of a unit vector and its quarter
rotation has both coefficients zero. -/
theorem rot_indep (c t dx dy : ℚ) (hunit : dx * dx + dy * dy = 1)
    (h1 : c * dx + t * dy = 0) (h2 : c * dy - t * dx = 0) : c = 0 ∧ t = 0 := by
  constructor
  · linear_combination dx * h1 + dy * h2 - c * hunit
  · linear_combination dy * h1 - dx * h2 - t * hunit

/-- Core distinctness argument over plain rationals: with a unit
direction `(dx, dy)`, positive half-widths, nonnegative extension and a
positive direction norm `N`, the four quad corners are pairwise
distinct.  `px, py / qx, qy` are the endpoint NDC positions, `ca, cb`
the (nonzero) clip `w` components, `za, zb` the clip `z` components. -/
theorem corners_distinct_core
    (px py qx qy dx dy vx vy la lb e N ca cb za zb : ℚ)
    (hvx : 0 < vx) (hvy : 0 < vy) (hla : 0 < la) (hlb : 0 < lb) (he : 0 ≤ e)
    (hN : 0 < N) (hca : ca ≠ 0) (hcb : cb ≠ 0)
    (hunit : dx * dx + dy * dy = 1)
    (hlx : qx - px = dx * N)
    (hly : (qy - py) * vy = dy * N * vx) :
    ((⟨(px + la / vx * -dy - e / vx * dx) * ca,
       (py + la / vy * dx - e / vy * dy) * ca, za, ca⟩ : Vec4) ≠
      ⟨(px - la / vx * -dy - e / vx * dx) * ca,
       (py - la / vy * dx - e / vy * dy) * ca, za, ca⟩) ∧
    ((⟨(px + la / vx * -dy - e / vx * dx) * ca,
       (py + la / vy * dx - e / vy * dy) * ca, za, ca⟩ : Vec4) ≠
      ⟨(qx + lb / vx * -dy + e / vx * dx) * cb,
       (qy + lb / vy * dx + e / vy * dy) * cb, zb, cb⟩) ∧
    ((⟨(px + la / vx * -dy - e / vx * dx) * ca,
       (py + la / vy * dx - e / vy * dy) * ca, za, ca⟩ : Vec4) ≠
      ⟨(qx - lb / vx * -dy + e / vx * dx) * cb,
       (qy - lb / vy * dx + e / vy * dy) * cb, zb, cb⟩) ∧
    ((⟨(px - la / vx * -dy - e / vx * dx) * ca,
       (py - la / vy * dx - e / vy * dy) * ca, za, ca⟩ : Vec4) ≠
      ⟨(qx + lb / vx * -dy + e / vx * dx) * cb,
       (qy + lb / vy * dx + e / vy * dy) * cb, zb, cb⟩) ∧
    ((⟨(px - la / vx * -dy - e / vx * dx) * ca,
       (py - la / vy * dx - e / vy * dy) * ca, za, ca⟩ : Vec4) ≠
      ⟨(qx - lb / vx * -dy + e / vx * dx) * cb,
       (qy - lb / vy * dx + e / vy * dy) * cb, zb, cb⟩) ∧
    ((⟨(qx + lb / vx * -dy + e / vx * dx) * cb,
       (qy + lb / vy * dx + e / vy * dy) * cb, zb, cb⟩ : Vec4) ≠
      ⟨(qx - lb / vx * -dy + e / vx * dx) * cb,
       (qy - lb / vy * dx + e / vy * dy) * cb, zb, cb⟩) := by
  have hvx' : vx ≠ 0 := ne_of_gt hvx
  have hvy' : vy ≠ 0 := ne_of_gt hvy
  have hcpos : 0 < N * vx + 2 * e := by nlinarith
  refine ⟨?_, ?_, ?_, ?_, ?_, ?_⟩
  · intro h
    rw [Vec4.mk.injEq] at h
    obtain ⟨hx, hy, _, _⟩ := h
    have hx' := mul_right_cancel₀ hca hx
    have hy' := mul_right_cancel₀ hca hy
    field_simp at hx' hy'
    have hdy : dy = 0 := by
      have h0 : la * dy = 0 := by linarith
      exact (mul_eq_zero.mp h0).resolve_left (ne_of_gt hla)
    have hdx : dx = 0 := by
      have h0 : la * dx = 0 := by linarith
      exact (mul_eq_zero.mp h0).resolve_left (ne_of_gt hla)
    rw [hdx, hdy] at hunit
    norm_num at hunit
  · intro h
    rw [Vec4.mk.injEq] at h
    obtain ⟨hx, hy, _, hw⟩ := h
    rw [← hw] at hx hy
    have hx' := mul_right_cancel₀ hca hx
    have hy' := mul_right_cancel₀ hca hy
    field_simp at hx' hy'
    have h1 : (N * vx + 2 * e) * dx + (la - lb) * dy = 0 := by
      linear_combination -hx' - vx * hlx
    have h2 : (N * vx + 2 * e) * dy - (la - lb) * dx = 0 := by
      linear_combination -hy' - hly
    have := (rot_indep _ _ _ _ hunit h1 h2).1
    linarith
  · intro h
    rw [Vec4.mk.injEq] at h
    obtain ⟨hx, hy, _, hw⟩ := h
    rw [← hw] at hx hy
    have hx' := mul_right_cancel₀ hca hx
    have hy' := mul_right_cancel₀ hca hy
    field_simp at hx' hy'
    have h1 : (N * vx + 2 * e) * dx + (la + lb) * dy = 0 := by
      linear_combination -hx' - vx * hlx
    have h2 : (N * vx + 2 * e) * dy - (la + lb) * dx = 0 := by
      linear_combination -hy' - hly
    have := (rot_indep _ _ _ _ hunit h1 h2).1
    linarith
  · intro h
    rw [Vec4.mk.injEq] at h
    obtain ⟨hx, hy, _, hw⟩ := h
    rw [← hw] at hx hy
    have hx' := mul_right_cancel₀ hca hx
    have hy' := mul_right_cancel₀ hca hy
    field_simp at hx' hy'
    have h1 : (N * vx + 2 * e) * dx + (-(la + lb)) * dy = 0 := by
      linear_combination -hx' - vx * hlx
    have h2 : (N * vx + 2 * e) * dy - (-(la + lb)) * dx = 0 := by
      linear_combination -hy' - hly
    have := (rot_indep _ _ _ _ hunit h1 h2).1
    linarith
  · intro h
    rw [Vec4.mk.injEq] at h
    obtain ⟨hx, hy, _, hw⟩ := h
    rw [← hw] at hx hy
    have hx' := mul_right_cancel₀ hca hx
    have hy' := mul_right_cancel₀ hca hy
    field_simp at hx' hy'
    have h1 : (N * vx + 2 * e) * dx + (lb - la) * dy = 0 := by
      linear_combination -hx' - vx * hlx
    have h2 : (N * vx + 2 * e) * dy - (lb - la) * dx = 0 := by
      linear_combination -hy' - hly
    have := (rot_indep _ _ _ _ hunit h1 h2).1
    linarith
  · intro h
    rw [Vec4.mk.injEq] at h
    obtain ⟨hx, hy, _, _⟩ := h
    have hx' := mul_right_cancel₀ hcb hx
    have hy' := mul_right_cancel₀ hcb hy
    field_simp at hx' hy'
    have hdy : dy = 0 := by
      have h0 : lb * dy = 0 := by linarith
      exact (mul_eq_zero.mp h0).resolve_left (ne_of_gt hlb)
    have hdx : dx = 0 := by
      have h0 : lb * dx = 0 := by linarith
      exact (mul_eq_zero.mp h0).resolve_left (ne_of_gt hlb)
    rw [hdx, hdy] at hunit
    norm_num at hunit

/-- When `sqrtq` returns the exact nonzero square root at the relevant
argument, the `dir` computed by the code is a unit vector. -/
theorem dir_unit (sqrtq : ℚ → ℚ) (mvp : Mat4) (viewport_size : Vec2)
    (v0 v1 : vertex_t)
    (hN2 : sqrtq (norm_sq (dir_arg mvp viewport_size v0 v1)) *
        sqrtq (norm_sq (dir_arg mvp viewport_size v0 v1)) =
      norm_sq (dir_arg mvp viewport_size v0 v1))
    (hN : sqrtq (norm_sq (dir_arg mvp viewport_size v0 v1)) ≠ 0) :
    (dir sqrtq mvp viewport_size v0 v1).x * (dir sqrtq mvp viewport_size v0 v1).x +
      (dir sqrtq mvp viewport_size v0 v1).y * (dir sqrtq mvp viewport_size v0 v1).y = 1 := by
  have hN2' : sqrtq (norm_sq (dir_arg mvp viewport_size v0 v1)) *
      sqrtq (norm_sq (dir_arg mvp viewport_size v0 v1)) =
    (dir_arg mvp viewport_size v0 v1).x * (dir_arg mvp viewport_size v0 v1).x +
      (dir_arg mvp viewport_size v0 v1).y * (dir_arg mvp viewport_size v0 v1).y := hN2
  simp only [dir, msh_vec2_normalize]
  field_simp
  linear_combination -hN2'

/-- The x component of the NDC segment vector is `dir.x` times the norm
returned by `sqrtq`. -/
theorem dir_x_scaled (sqrtq : ℚ → ℚ) (mvp : Mat4) (viewport_size : Vec2)
    (v0 v1 : vertex_t)
    (hN : sqrtq (norm_sq (dir_arg mvp viewport_size v0 v1)) ≠ 0) :
    (ndc0 (clip0 mvp v1)).x - (ndc0 (clip0 mvp v0)).x =
      (dir sqrtq mvp viewport_size v0 v1).x *
        sqrtq (norm_sq (dir_arg mvp viewport_size v0 v1)) := by
  have hx : (dir_arg mvp viewport_size v0 v1).x =
      (ndc0 (clip0 mvp v1)).x - (ndc0 (clip0 mvp v0)).x := rfl
  rw [← hx]
  simp only [dir, msh_vec2_normalize]
  field_simp

/-- The y component of the NDC segment vector, scaled by the viewport
height, is `dir.y` times the norm times the viewport width (the aspect
correction untangled). -/
theorem dir_y_scaled (sqrtq : ℚ → ℚ) (mvp : Mat4) (viewport_size : Vec2)
    (v0 v1 : vertex_t)
    (hN : sqrtq (norm_sq (dir_arg mvp viewport_size v0 v1)) ≠ 0)
    (hvx : viewport_size.x ≠ 0) :
    ((ndc0 (clip0 mvp v1)).y - (ndc0 (clip0 mvp v0)).y) * viewport_size.y =
      (dir sqrtq mvp viewport_size v0 v1).y *
        sqrtq (norm_sq (dir_arg mvp viewport_size v0 v1)) * viewport_size.x := by
  have hy : (dir_arg mvp viewport_size v0 v1).y =
      ((ndc0 (clip0 mvp v1)).y - (ndc0 (clip0 mvp v0)).y) * aspect viewport_size := rfl
  simp only [dir, msh_vec2_normalize]
  rw [hy]
  simp only [aspect]
  field_simp
  ring

/-- Effective half-width of `A` is positive when `aaRadius.x` is
nonnegative (the `max(1, width)` floor). -/
theorem line_width_a_pos (aa_radius : Vec2) (v0 : vertex_t)
    (hax : 0 ≤ aa_radius.x) : 0 < line_width_a aa_radius v0 := by
  rw [line_width_a, msh_max_eq]
  have h1 : (1 : ℚ) ≤ max 1 v0.width := le_max_left 1 v0.width
  linarith

/-- Effective half-width of `B` is positive when `aaRadius.x` is
nonnegative. -/
theorem line_width_b_pos (aa_radius : Vec2) (v1 : vertex_t)
    (hax : 0 ≤ aa_radius.x) : 0 < line_width_b aa_radius v1 := by
  rw [line_width_b, msh_max_eq]
  have h1 : (1 : ℚ) ≤ max 1 v1.width := le_max_left 1 v1.width
  linarith

/-- C1: for a segment with both clip `w` components nonzero, positive
viewport, nonnegative antialiasing radius, and an exact positive square
root of the squared norm of the aspect-corrected direction (in particular a
nonzero aspect-corrected direction), the six emitted clip positions are
exactly the four spec corners `((ndcE + s_n*normalE + s_e*extension) *
clipE.w, clipE.z, clipE.w)` in the emission pattern `A+ A- B+ A- B+ B-`,
the four corners are pairwise distinct, and every output carries the
original clip `z` and `w` of its endpoint unchanged. -/
theorem C1_clip_corners (sqrtq : ℚ → ℚ) (mvp : Mat4)
    (viewport_size aa_radius : Vec2) (v0 v1 : vertex_t)
    (hwA : (clip0 mvp v0).w ≠ 0) (hwB : (clip0 mvp v1).w ≠ 0)
    (hvx : 0 < viewport_size.x) (hvy : 0 < viewport_size.y)
    (hax : 0 ≤ aa_radius.x) (hay : 0 ≤ aa_radius.y)
    (hN : 0 < sqrtq (norm_sq (dir_arg mvp viewport_size v0 v1)))
    (hN2 : sqrtq (norm_sq (dir_arg mvp viewport_size v0 v1)) *
        sqrtq (norm_sq (dir_arg mvp viewport_size v0 v1)) =
      norm_sq (dir_arg mvp viewport_size v0 v1)) :
    ((expand_segment sqrtq mvp viewport_size aa_radius v0 v1).map
        (fun r => r.clip_pos) =
      [spec_corner sqrtq mvp viewport_size aa_radius v0 v1 false 1,
       spec_corner sqrtq mvp viewport_size aa_radius v0 v1 false (-1),
       spec_corner sqrtq mvp viewport_size aa_radius v0 v1 true 1,
       spec_corner sqrtq mvp viewport_size aa_radius v0 v1 false (-1),
       spec_corner sqrtq mvp viewport_size aa_radius v0 v1 true 1,
       spec_corner sqrtq mvp viewport_size aa_radius v0 v1 true (-1)]) ∧
    (clip_a0 sqrtq mvp viewport_size aa_radius v0 v1 ≠
      clip_a1 sqrtq mvp viewport_size aa_radius v0 v1) ∧
    (clip_a0 sqrtq mvp viewport_size aa_radius v0 v1 ≠
      clip_b0 sqrtq mvp viewport_size aa_radius v0 v1) ∧
    (clip_a0 sqrtq mvp viewport_size aa_radius v0 v1 ≠
      clip_b1 sqrtq mvp viewport_size aa_radius v0 v1) ∧
    (clip_a1 sqrtq mvp viewport_size aa_radius v0 v1 ≠
      clip_b0 sqrtq mvp viewport_size aa_radius v0 v1) ∧
    (clip_a1 sqrtq mvp viewport_size aa_radius v0 v1 ≠
      clip_b1 sqrtq mvp viewport_size aa_radius v0 v1) ∧
    (clip_b0 sqrtq mvp viewport_size aa_radius v0 v1 ≠
      clip_b1 sqrtq mvp viewport_size aa_radius v0 v1) ∧
    ((expand_segment sqrtq mvp viewport_size aa_radius v0 v1).map
        (fun r => (r.clip_pos.z, r.clip_pos.w)) =
      [((clip0 mvp v0).z, (clip0 mvp v0).w), ((clip0 mvp v0).z, (clip0 mvp v0).w),
       ((clip0 mvp v1).z, (clip0 mvp v1).w), ((clip0 mvp v0).z, (clip0 mvp v0).w),
       ((clip0 mvp v1).z, (clip0 mvp v1).w), ((clip0 mvp v1).z, (clip0 mvp v1).w)]) := by
  have hunit := dir_unit sqrtq mvp viewport_size v0 v1 hN2 (ne_of_gt hN)
  have hlx := dir_x_scaled sqrtq mvp viewport_size v0 v1 (ne_of_gt hN)
  have hly := dir_y_scaled sqrtq mvp viewport_size v0 v1 (ne_of_gt hN) (ne_of_gt hvx)
  have hla := line_width_a_pos aa_radius v0 hax
  have hlb := line_width_b_pos aa_radius v1 hax
  have he : (0 : ℚ) ≤ extension_length aa_radius := hay
  have core := corners_distinct_core
    ((ndc0 (clip0 mvp v0)).x) ((ndc0 (clip0 mvp v0)).y)
    ((ndc0 (clip0 mvp v1)).x) ((ndc0 (clip0 mvp v1)).y)
    ((dir sqrtq mvp viewport_size v0 v1).x) ((dir sqrtq mvp viewport_size v0 v1).y)
    viewport_size.x viewport_size.y
    (line_width_a aa_radius v0) (line_width_b aa_radius v1)
    (extension_length aa_radius)
    (sqrtq (norm_sq (dir_arg mvp viewport_size v0 v1)))
    ((clip0 mvp v0).w) ((clip0 mvp v1).w)
    ((clip0 mvp v0).z) ((clip0 mvp v1).z)
    hvx hvy hla hlb he hN hwA hwB hunit hlx hly
  obtain ⟨d1, d2, d3, d4, d5, d6⟩ := core
  refine ⟨?_, ?_, ?_, ?_, ?_, ?_, ?_, ?_⟩
  · simp only [expand_segment, dst0, dst1, dst2, dst3, dst4, dst5,
      List.map_cons, List.map_nil, clip_a0_eq_spec, clip_a1_eq_spec,
      clip_b0_eq_spec, clip_b1_eq_spec]
  · simpa only [clip_a0, clip_a1, normal_a, normal, extension,
      msh_vec2_mul] using d1
  · simpa only [clip_a0, clip_b0, normal_a, normal_b, normal, extension,
      msh_vec2_mul] using d2
  · simpa only [clip_a0, clip_b1, normal_a, normal_b, normal, extension,
      msh_vec2_mul] using d3
  · simpa only [clip_a1, clip_b0, normal_a, normal_b, normal, extension,
      msh_vec2_mul] using d4
  · simpa only [clip_a1, clip_b1, normal_a, normal_b, normal, extension,
      msh_vec2_mul] using d5
  · simpa only [clip_b0, clip_b1, normal_b, normal, extension,
      msh_vec2_mul] using d6
  · simp only [expand_segment, dst0, dst1, dst2, dst3, dst4, dst5,
      clip_a0, clip_a1, clip_b0, clip_b1, List.map_cons, List.map_nil]

/-- C1 witness: the unit segment from the origin to `(1,0,0)` under the
identity mvp on a unit viewport. -/
theorem C1_clip_corners_witness :
    (clip0 mId sA).w ≠ 0 ∧ (clip0 mId sB).w ≠ 0 ∧
    (0 : ℚ) < (⟨1, 1⟩ : Vec2).x ∧ (0 : ℚ) < (⟨1, 1⟩ : Vec2).y ∧
    (0 : ℚ) ≤ (⟨0, 0⟩ : Vec2).x ∧ (0 : ℚ) ≤ (⟨0, 0⟩ : Vec2).y ∧
    0 < (fun q => q) (norm_sq (dir_arg mId ⟨1, 1⟩ sA sB)) ∧
    clip_a0 (fun q => q) mId ⟨1, 1⟩ ⟨0, 0⟩ sA sB ≠
      clip_b0 (fun q => q) mId ⟨1, 1⟩ ⟨0, 0⟩ sA sB := by
  have hwA : (clip0 mId sA).w ≠ 0 := by
    norm_num [clip0, mId, sA, msh_mat4_vec4_mul]
  have hwB : (clip0 mId sB).w ≠ 0 := by
    norm_num [clip0, mId, sB, msh_mat4_vec4_mul]
  have hN : 0 < (fun q => q) (norm_sq (dir_arg mId ⟨1, 1⟩ sA sB)) := by
    norm_num [norm_sq, dir_arg, line_vector, msh_vec2_sub, ndc0,
      msh_vec2_scalar_div, aspect, clip0, mId, sA, sB, msh_mat4_vec4_mul]
  have hN2 : (fun q => q) (norm_sq (dir_arg mId ⟨1, 1⟩ sA sB)) *
      (fun q => q) (norm_sq (dir_arg mId ⟨1, 1⟩ sA sB)) =
    norm_sq (dir_arg mId ⟨1, 1⟩ sA sB) := by
    norm_num [norm_sq, dir_arg, line_vector, msh_vec2_sub, ndc0,
      msh_vec2_scalar_div, aspect, clip0, mId, sA, sB, msh_mat4_vec4_mul]
  exact ⟨hwA, hwB, by norm_num, by norm_num, by norm_num, by norm_num, hN,
    (C1_clip_corners (fun q => q) mId ⟨1, 1⟩ ⟨0, 0⟩ sA sB hwA hwB
      (by norm_num) (by norm_num) (by norm_num) (by norm_num) hN hN2).2.2.1⟩

/-- Core winding computation over plain rationals: twice the signed
area of the first triangle times `vx * vy` is `2*la*(N*vx + 2*e) > 0`,
and of the second is `-2*lb*(N*vx + 2*e) < 0`.  The offset components
`nax ... ey` are constrained by the division-free side conditions. -/
theorem winding_core (px py qx qy dx dy vx vy la lb e N nax nay nbx nby ex ey : ℚ)
    (hvx : 0 < vx) (hvy : 0 < vy) (hla : 0 < la) (hlb : 0 < lb) (he : 0 ≤ e)
    (hN : 0 < N)
    (hunit : dx * dx + dy * dy = 1)
    (hlx : qx - px = dx * N)
    (hly : (qy - py) * vy = dy * N * vx)
    (hnax : nax * vx = la * -dy) (hnay : nay * vy = la * dx)
    (hnbx : nbx * vx = lb * -dy) (hnby : nby * vy = lb * dx)
    (hex : ex * vx = e * dx) (hey : ey * vy = e * dy) :
    0 < signed_area2 ⟨px + nax - ex, py + nay - ey⟩ ⟨px - nax - ex, py - nay - ey⟩
        ⟨qx + nbx + ex, qy + nby + ey⟩ ∧
    signed_area2 ⟨px - nax - ex, py - nay - ey⟩ ⟨qx + nbx + ex, qy + nby + ey⟩
        ⟨qx - nbx + ex, qy - nby + ey⟩ < 0 := by
  have hvxy : 0 < vx * vy := mul_pos hvx hvy
  have hsum : 0 < N * vx + 2 * e := by
    have := mul_pos hN hvx
    linarith
  constructor
  · have key1 : signed_area2 ⟨px + nax - ex, py + nay - ey⟩
        ⟨px - nax - ex, py - nay - ey⟩ ⟨qx + nbx + ex, qy + nby + ey⟩ * (vx * vy) =
          2 * la * (N * vx + 2 * e) := by
      simp only [signed_area2]
      linear_combination
        (-2 * ((qy - py) + nby - nay + 2 * ey) * vy - 2 * la * dx) * hnax +
        (2 * ((qx - px) + nbx - nax + 2 * ex) * vx - 2 * la * dy) * hnay +
        (2 * la * dx) * hnbx + (2 * la * dy) * hnby +
        (4 * la * dx) * hex + (4 * la * dy) * hey +
        (2 * la * dx * vx) * hlx + (2 * la * dy) * hly +
        (2 * la * N * vx + 4 * e * la) * hunit
    have h2 : 0 < 2 * la * (N * vx + 2 * e) :=
      mul_pos (by linarith) hsum
    have hA := (eq_div_iff (ne_of_gt hvxy)).mpr key1
    rw [hA]
    exact div_pos h2 hvxy
  · have key2 : signed_area2 ⟨px - nax - ex, py - nay - ey⟩
        ⟨qx + nbx + ex, qy + nby + ey⟩ ⟨qx - nbx + ex, qy - nby + ey⟩ * (vx * vy) =
          -2 * lb * (N * vx + 2 * e) := by
      simp only [signed_area2]
      linear_combination
        (2 * ((qy - py) + nay + 2 * ey) * vy) * hnbx +
        (-2 * ((qx - px) + nax + 2 * ex) * vx) * hnby +
        (-2 * lb * dy) * hly + (-2 * lb * dy) * hnay + (-4 * lb * dy) * hey +
        (-2 * lb * dx * vx) * hlx + (-2 * lb * dx) * hnax + (-4 * lb * dx) * hex +
        (-2 * lb * (N * vx + 2 * e)) * hunit
    have h2 : -2 * lb * (N * vx + 2 * e) < 0 := by
      have := mul_pos (show (0 : ℚ) < 2 * lb by linarith) hsum
      linarith
    have hA := (eq_div_iff (ne_of_gt hvxy)).mpr key2
    rw [hA]
    exact div_neg_of_neg_of_pos h2 hvxy

/-- C8 amended: for every non-degenerate segment (same hypotheses as
C1), the two emitted triangles have OPPOSITE winding: the NDC-projected
signed area of triangle `(dst0, dst1, dst2)` is strictly positive and
that of `(dst3, dst4, dst5)` is strictly negative, the same pattern for
every segment regardless of its direction. -/
theorem C8_amended_winding (sqrtq : ℚ → ℚ) (mvp : Mat4)
    (viewport_size aa_radius : Vec2) (v0 v1 : vertex_t)
    (hwA : (clip0 mvp v0).w ≠ 0) (hwB : (clip0 mvp v1).w ≠ 0)
    (hvx : 0 < viewport_size.x) (hvy : 0 < viewport_size.y)
    (hax : 0 ≤ aa_radius.x) (hay : 0 ≤ aa_radius.y)
    (hN : 0 < sqrtq (norm_sq (dir_arg mvp viewport_size v0 v1)))
    (hN2 : sqrtq (norm_sq (dir_arg mvp viewport_size v0 v1)) *
        sqrtq (norm_sq (dir_arg mvp viewport_size v0 v1)) =
      norm_sq (dir_arg mvp viewport_size v0 v1)) :
    0 < signed_area2
        (ndc_of (dst0 sqrtq mvp viewport_size aa_radius v0 v1).clip_pos)
        (ndc_of (dst1 sqrtq mvp viewport_size aa_radius v0 v1).clip_pos)
        (ndc_of (dst2 sqrtq mvp viewport_size aa_radius v0 v1).clip_pos) ∧
    signed_area2
        (ndc_of (dst3 sqrtq mvp viewport_size aa_radius v0 v1).clip_pos)
        (ndc_of (dst4 sqrtq mvp viewport_size aa_radius v0 v1).clip_pos)
        (ndc_of (dst5 sqrtq mvp viewport_size aa_radius v0 v1).clip_pos) < 0 := by
  have hunit := dir_unit sqrtq mvp viewport_size v0 v1 hN2 (ne_of_gt hN)
  have hlx := dir_x_scaled sqrtq mvp viewport_size v0 v1 (ne_of_gt hN)
  have hly := dir_y_scaled sqrtq mvp viewport_size v0 v1 (ne_of_gt hN) (ne_of_gt hvx)
  have hla := line_width_a_pos aa_radius v0 hax
  have hlb := line_width_b_pos aa_radius v1 hax
  have he : (0 : ℚ) ≤ extension_length aa_radius := hay
  have hnax : (normal_a sqrtq mvp viewport_size aa_radius v0 v1).x * viewport_size.x =
      line_width_a aa_radius v0 * -(dir sqrtq mvp viewport_size v0 v1).y := by
    simp only [normal_a, msh_vec2_mul, normal]
    field_simp
  have hnay : (normal_a sqrtq mvp viewport_size aa_radius v0 v1).y * viewport_size.y =
      line_width_a aa_radius v0 * (dir sqrtq mvp viewport_size v0 v1).x := by
    simp only [normal_a, msh_vec2_mul, normal]
    field_simp
  have hnbx : (normal_b sqrtq mvp viewport_size aa_radius v0 v1).x * viewport_size.x =
      line_width_b aa_radius v1 * -(dir sqrtq mvp viewport_size v0 v1).y := by
    simp only [normal_b, msh_vec2_mul, normal]
    field_simp
  have hnby : (normal_b sqrtq mvp viewport_size aa_radius v0 v1).y * viewport_size.y =
      line_width_b aa_radius v1 * (dir sqrtq mvp viewport_size v0 v1).x := by
    simp only [normal_b, msh_vec2_mul, normal]
    field_simp
  have hex : (extension sqrtq mvp viewport_size aa_radius v0 v1).x * viewport_size.x =
      extension_length aa_radius * (dir sqrtq mvp viewport_size v0 v1).x := by
    simp only [extension, msh_vec2_mul]
    field_simp
  have hey : (extension sqrtq mvp viewport_size aa_radius v0 v1).y * viewport_size.y =
      extension_length aa_radius * (dir sqrtq mvp viewport_size v0 v1).y := by
    simp only [extension, msh_vec2_mul]
    field_simp
  have core := winding_core
    ((ndc0 (clip0 mvp v0)).x) ((ndc0 (clip0 mvp v0)).y)
    ((ndc0 (clip0 mvp v1)).x) ((ndc0 (clip0 mvp v1)).y)
    ((dir sqrtq mvp viewport_size v0 v1).x) ((dir sqrtq mvp viewport_size v0 v1).y)
    viewport_size.x viewport_size.y
    (line_width_a aa_radius v0) (line_width_b aa_radius v1)
    (extension_length aa_radius)
    (sqrtq (norm_sq (dir_arg mvp viewport_size v0 v1)))
    ((normal_a sqrtq mvp viewport_size aa_radius v0 v1).x)
    ((normal_a sqrtq mvp viewport_size aa_radius v0 v1).y)
    ((normal_b sqrtq mvp viewport_size aa_radius v0 v1).x)
    ((normal_b sqrtq mvp viewport_size aa_radius v0 v1).y)
    ((extension sqrtq mvp viewport_size aa_radius v0 v1).x)
    ((extension sqrtq mvp viewport_size aa_radius v0 v1).y)
    hvx hvy hla hlb he hN hunit hlx hly hnax hnay hnbx hnby hex hey
  have e0 : ndc_of (dst0 sqrtq mvp viewport_size aa_radius v0 v1).clip_pos =
      (⟨(ndc0 (clip0 mvp v0)).x + (normal_a sqrtq mvp viewport_size aa_radius v0 v1).x -
          (extension sqrtq mvp viewport_size aa_radius v0 v1).x,
        (ndc0 (clip0 mvp v0)).y + (normal_a sqrtq mvp viewport_size aa_radius v0 v1).y -
          (extension sqrtq mvp viewport_size aa_radius v0 v1).y⟩ : Vec2) := by
    simp only [dst0, clip_a0, ndc_of, Vec2.mk.injEq]
    constructor <;> exact mul_div_cancel_right₀ _ hwA
  have e1 : ndc_of (dst1 sqrtq mvp viewport_size aa_radius v0 v1).clip_pos =
      (⟨(ndc0 (clip0 mvp v0)).x - (normal_a sqrtq mvp viewport_size aa_radius v0 v1).x -
          (extension sqrtq mvp viewport_size aa_radius v0 v1).x,
        (ndc0 (clip0 mvp v0)).y - (normal_a sqrtq mvp viewport_size aa_radius v0 v1).y -
          (extension sqrtq mvp viewport_size aa_radius v0 v1).y⟩ : Vec2) := by
    simp only [dst1, clip_a1, ndc_of, Vec2.mk.injEq]
    constructor <;> exact mul_div_cancel_right₀ _ hwA
  have e2 : ndc_of (dst2 sqrtq mvp viewport_size aa_radius v0 v1).clip_pos =
      (⟨(ndc0 (clip0 mvp v1)).x + (normal_b sqrtq mvp viewport_size aa_radius v0 v1).x +
          (extension sqrtq mvp viewport_size aa_radius v0 v1).x,
        (ndc0 (clip0 mvp v1)).y + (normal_b sqrtq mvp viewport_size aa_radius v0 v1).y +
          (extension sqrtq mvp viewport_size aa_radius v0 v1).y⟩ : Vec2) := by
    simp only [dst2, clip_b0, ndc_of, Vec2.mk.injEq]
    constructor <;> exact mul_div_cancel_right₀ _ hwB
  have e3 : ndc_of (dst3 sqrtq mvp viewport_size aa_radius v0 v1).clip_pos =
      ndc_of (dst1 sqrtq mvp viewport_size aa_radius v0 v1).clip_pos := rfl
  have e4 : ndc_of (dst4 sqrtq mvp viewport_size aa_radius v0 v1).clip_pos =
      ndc_of (dst2 sqrtq mvp viewport_size aa_radius v0 v1).clip_pos := rfl
  have e5 : ndc_of (dst5 sqrtq mvp viewport_size aa_radius v0 v1).clip_pos =
      (⟨(ndc0 (clip0 mvp v1)).x - (normal_b sqrtq mvp viewport_size aa_radius v0 v1).x +
          (extension sqrtq mvp viewport_size aa_radius v0 v1).x,
        (ndc0 (clip0 mvp v1)).y - (normal_b sqrtq mvp viewport_size aa_radius v0 v1).y +
          (extension sqrtq mvp viewport_size aa_radius v0 v1).y⟩ : Vec2) := by
    simp only [dst5, clip_b1, ndc_of, Vec2.mk.injEq]
    constructor <;> exact mul_div_cancel_right₀ _ hwB
  rw [e3, e4, e0, e1, e2, e5]
  exact core

/-- C8 counterexample: for the unit segment on a unit viewport the signed areas of the two
triangles are `2` and `-2` â not the same sign, refuting
the claimed identical winding. -/
theorem C8_counterexample :
    signed_area2 (ndc_of (dst0 (fun q => q) mId ⟨1, 1⟩ ⟨0, 0⟩ sA sB).clip_pos)
        (ndc_of (dst1 (fun q => q) mId ⟨1, 1⟩ ⟨0, 0⟩ sA sB).clip_pos)
        (ndc_of (dst2 (fun q => q) mId ⟨1, 1⟩ ⟨0, 0⟩ sA sB).clip_pos) = 2 ∧
    signed_area2 (ndc_of (dst3 (fun q => q) mId ⟨1, 1⟩ ⟨0, 0⟩ sA sB).clip_pos)
        (ndc_of (dst4 (fun q => q) mId ⟨1, 1⟩ ⟨0, 0⟩ sA sB).clip_pos)
        (ndc_of (dst5 (fun q => q) mId ⟨1, 1⟩ ⟨0, 0⟩ sA sB).clip_pos) = -2 ∧
    ¬ (((0 : ℚ) < 2 ∧ (0 : ℚ) < -2) ∨ ((2 : ℚ) < 0 ∧ (-2 : ℚ) < 0)) := by
  refine ⟨?_, ?_, by norm_num⟩ <;>
  norm_num [signed_area2, ndc_of, dst0, dst1, dst2, dst3, dst4, dst5, clip_a0,
    clip_a1, clip_b0, clip_b1, normal_a, normal_b, normal, extension,
    msh_vec2_mul, dir, msh_vec2_normalize, dir_arg, line_vector, msh_vec2_sub,
    ndc0, msh_vec2_scalar_div, aspect, clip0, mId, sA, sB, msh_mat4_vec4_mul,
    norm_sq, line_width_a, line_width_b, msh_max, extension_length]

/-- C8 amended witness: the concrete unit segment instantiation. -/
theorem C8_amended_winding_witness :
    0 < signed_area2 (ndc_of (dst0 (fun q => q) mId ⟨1, 1⟩ ⟨0, 0⟩ sA sB).clip_pos)
        (ndc_of (dst1 (fun q => q) mId ⟨1, 1⟩ ⟨0, 0⟩ sA sB).clip_pos)
        (ndc_of (dst2 (fun q => q) mId ⟨1, 1⟩ ⟨0, 0⟩ sA sB).clip_pos) ∧
    signed_area2 (ndc_of (dst3 (fun q => q) mId ⟨1, 1⟩ ⟨0, 0⟩ sA sB).clip_pos)
        (ndc_of (dst4 (fun q => q) mId ⟨1, 1⟩ ⟨0, 0⟩ sA sB).clip_pos)
        (ndc_of (dst5 (fun q => q) mId ⟨1, 1⟩ ⟨0, 0⟩ sA sB).clip_pos) < 0 := by
  have hwA : (clip0 mId sA).w ≠ 0 := by
    norm_num [clip0, mId, sA, msh_mat4_vec4_mul]
  have hwB : (clip0 mId sB).w ≠ 0 := by
    norm_num [clip0, mId, sB, msh_mat4_vec4_mul]
  have hN : 0 < (fun q => q) (norm_sq (dir_arg mId ⟨1, 1⟩ sA sB)) := by
    norm_num [norm_sq, dir_arg, line_vector, msh_vec2_sub, ndc0,
      msh_vec2_scalar_div, aspect, clip0, mId, sA, sB, msh_mat4_vec4_mul]
  have hN2 : (fun q => q) (norm_sq (dir_arg mId ⟨1, 1⟩ sA sB)) *
      (fun q => q) (norm_sq (dir_arg mId ⟨1, 1⟩ sA sB)) =
    norm_sq (dir_arg mId ⟨1, 1⟩ sA sB) := by
    norm_num [norm_sq, dir_arg, line_vector, msh_vec2_sub, ndc0,
      msh_vec2_scalar_div, aspect, clip0, mId, sA, sB, msh_mat4_vec4_mul]
  exact C8_amended_winding (fun q => q) mId ⟨1, 1⟩ ⟨0, 0⟩ sA sB hwA hwB
    (by norm_num) (by norm_num) (by norm_num) (by norm_num) hN hN2

/-- NDC of the emitted `clip_a0` corner (clip `w` nonzero): endpoint NDC
plus normal offset minus extension. -/
theorem ndc_of_clip_a0 (sqrtq : ℚ → ℚ) (mvp : Mat4)
    (viewport_size aa_radius : Vec2) (v0 v1 : vertex_t)
    (hwA : (clip0 mvp v0).w ≠ 0) :
    ndc_of (clip_a0 sqrtq mvp viewport_size aa_radius v0 v1) =
      (⟨(ndc0 (clip0 mvp v0)).x + (normal_a sqrtq mvp viewport_size aa_radius v0 v1).x -
          (extension sqrtq mvp viewport_size aa_radius v0 v1).x,
        (ndc0 (clip0 mvp v0)).y + (normal_a sqrtq mvp viewport_size aa_radius v0 v1).y -
          (extension sqrtq mvp viewport_size aa_radius v0 v1).y⟩ : Vec2) := by
  simp only [clip_a0, ndc_of, Vec2.mk.injEq]
  constructor <;> exact mul_div_cancel_right₀ _ hwA

/-- NDC of the emitted `clip_a1` corner (clip `w` nonzero). -/
theorem ndc_of_clip_a1 (sqrtq : ℚ → ℚ) (mvp : Mat4)
    (viewport_size aa_radius : Vec2) (v0 v1 : vertex_t)
    (hwA : (clip0 mvp v0).w ≠ 0) :
    ndc_of (clip_a1 sqrtq mvp viewport_size aa_radius v0 v1) =
      (⟨(ndc0 (clip0 mvp v0)).x - (normal_a sqrtq mvp viewport_size aa_radius v0 v1).x -
          (extension sqrtq mvp viewport_size aa_radius v0 v1).x,
        (ndc0 (clip0 mvp v0)).y - (normal_a sqrtq mvp viewport_size aa_radius v0 v1).y -
          (extension sqrtq mvp viewport_size aa_radius v0 v1).y⟩ : Vec2) := by
  simp only [clip_a1, ndc_of, Vec2.mk.injEq]
  constructor <;> exact mul_div_cancel_right₀ _ hwA

/-- NDC of the emitted `clip_b0` corner (clip `w` nonzero). -/
theorem ndc_of_clip_b0 (sqrtq : ℚ → ℚ) (mvp : Mat4)
    (viewport_size aa_radius : Vec2) (v0 v1 : vertex_t)
    (hwB : (clip0 mvp v1).w ≠ 0) :
    ndc_of (clip_b0 sqrtq mvp viewport_size aa_radius v0 v1) =
      (⟨(ndc0 (clip0 mvp v1)).x + (normal_b sqrtq mvp viewport_size aa_radius v0 v1).x +
          (extension sqrtq mvp viewport_size aa_radius v0 v1).x,
        (ndc0 (clip0 mvp v1)).y + (normal_b sqrtq mvp viewport_size aa_radius v0 v1).y +
          (extension sqrtq mvp viewport_size aa_radius v0 v1).y⟩ : Vec2) := by
  simp only [clip_b0, ndc_of, Vec2.mk.injEq]
  constructor <;> exact mul_div_cancel_right₀ _ hwB

/-- NDC of the emitted `clip_b1` corner (clip `w` nonzero). -/
theorem ndc_of_clip_b1 (sqrtq : ℚ → ℚ) (mvp : Mat4)
    (viewport_size aa_radius : Vec2) (v0 v1 : vertex_t)
    (hwB : (clip0 mvp v1).w ≠ 0) :
    ndc_of (clip_b1 sqrtq mvp viewport_size aa_radius v0 v1) =
      (⟨(ndc0 (clip0 mvp v1)).x - (normal_b sqrtq mvp viewport_size aa_radius v0 v1).x +
          (extension sqrtq mvp viewport_size aa_radius v0 v1).x,
        (ndc0 (clip0 mvp v1)).y - (normal_b sqrtq mvp viewport_size aa_radius v0 v1).y +
          (extension sqrtq mvp viewport_size aa_radius v0 v1).y⟩ : Vec2) := by
  simp only [clip_b1, ndc_of, Vec2.mk.injEq]
  constructor <;> exact mul_div_cancel_right₀ _ hwB

/-- Doubling both viewport components leaves the aspect ratio, and hence the `dir` computed by
the code, unchanged. -/
theorem dir_double_viewport (sqrtq : ℚ → ℚ) (mvp : Mat4)
    (viewport_size : Vec2) (v0 v1 : vertex_t) :
    dir sqrtq mvp ⟨2 * viewport_size.x, 2 * viewport_size.y⟩ v0 v1 =
      dir sqrtq mvp viewport_size v0 v1 := by
  have harg : dir_arg mvp ⟨2 * viewport_size.x, 2 * viewport_size.y⟩ v0 v1 =
      dir_arg mvp viewport_size v0 v1 := by
    simp only [dir_arg, aspect, Vec2.mk.injEq]
    refine ⟨trivial, ?_⟩
    rw [mul_div_mul_left _ _ (two_ne_zero)]
  simp only [dir]
  rw [harg]

/-- C9 amended: doubling `viewportSize` while keeping `aaRadius` and the
vertex widths unchanged yields quads congruent in viewport-pixel space:
the offset of each emitted corner from the NDC position of its endpoint, scaled
componentwise by the viewport size, is identical between the two calls
(and the remaining two of the six records duplicate `dst1`/`dst2`).  The
transformation of the claim (viewport doubled AND `aaRadius` halved) preserves
neither the NDC positions nor these pixel offsets. -/
theorem C9_amended_pixel_congruence (sqrtq : ℚ → ℚ) (mvp : Mat4)
    (viewport_size aa_radius : Vec2) (v0 v1 : vertex_t)
    (hwA : (clip0 mvp v0).w ≠ 0) (hwB : (clip0 mvp v1).w ≠ 0) :
    (pixel_off ⟨2 * viewport_size.x, 2 * viewport_size.y⟩
        (ndc_of (dst0 sqrtq mvp ⟨2 * viewport_size.x, 2 * viewport_size.y⟩
          aa_radius v0 v1).clip_pos) (ndc0 (clip0 mvp v0)) =
      pixel_off viewport_size
        (ndc_of (dst0 sqrtq mvp viewport_size aa_radius v0 v1).clip_pos)
        (ndc0 (clip0 mvp v0))) ∧
    (pixel_off ⟨2 * viewport_size.x, 2 * viewport_size.y⟩
        (ndc_of (dst1 sqrtq mvp ⟨2 * viewport_size.x, 2 * viewport_size.y⟩
          aa_radius v0 v1).clip_pos) (ndc0 (clip0 mvp v0)) =
      pixel_off viewport_size
        (ndc_of (dst1 sqrtq mvp viewport_size aa_radius v0 v1).clip_pos)
        (ndc0 (clip0 mvp v0))) ∧
    (pixel_off ⟨2 * viewport_size.x, 2 * viewport_size.y⟩
        (ndc_of (dst2 sqrtq mvp ⟨2 * viewport_size.x, 2 * viewport_size.y⟩
          aa_radius v0 v1).clip_pos) (ndc0 (clip0 mvp v1)) =
      pixel_off viewport_size
        (ndc_of (dst2 sqrtq mvp viewport_size aa_radius v0 v1).clip_pos)
        (ndc0 (clip0 mvp v1))) ∧
    (pixel_off ⟨2 * viewport_size.x, 2 * viewport_size.y⟩
        (ndc_of (dst5 sqrtq mvp ⟨2 * viewport_size.x, 2 * viewport_size.y⟩
          aa_radius v0 v1).clip_pos) (ndc0 (clip0 mvp v1)) =
      pixel_off viewport_size
        (ndc_of (dst5 sqrtq mvp viewport_size aa_radius v0 v1).clip_pos)
        (ndc0 (clip0 mvp v1))) ∧
    (dst3 sqrtq mvp viewport_size aa_radius v0 v1 =
      dst1 sqrtq mvp viewport_size aa_radius v0 v1) ∧
    (dst4 sqrtq mvp viewport_size aa_radius v0 v1 =
      dst2 sqrtq mvp viewport_size aa_radius v0 v1) := by
  have hdir := dir_double_viewport sqrtq mvp viewport_size v0 v1
  refine ⟨?_, ?_, ?_, ?_, rfl, rfl⟩
  · simp only [dst0]
    rw [ndc_of_clip_a0 sqrtq mvp ⟨2 * viewport_size.x, 2 * viewport_size.y⟩
        aa_radius v0 v1 hwA,
      ndc_of_clip_a0 sqrtq mvp viewport_size aa_radius v0 v1 hwA]
    simp only [pixel_off, normal_a, msh_vec2_mul, normal, extension]
    rw [hdir]
    rw [Vec2.mk.injEq]
    constructor <;> ring
  · simp only [dst1]
    rw [ndc_of_clip_a1 sqrtq mvp ⟨2 * viewport_size.x, 2 * viewport_size.y⟩
        aa_radius v0 v1 hwA,
      ndc_of_clip_a1 sqrtq mvp viewport_size aa_radius v0 v1 hwA]
    simp only [pixel_off, normal_a, msh_vec2_mul, normal, extension]
    rw [hdir]
    rw [Vec2.mk.injEq]
    constructor <;> ring
  · simp only [dst2]
    rw [ndc_of_clip_b0 sqrtq mvp ⟨2 * viewport_size.x, 2 * viewport_size.y⟩
        aa_radius v0 v1 hwB,
      ndc_of_clip_b0 sqrtq mvp viewport_size aa_radius v0 v1 hwB]
    simp only [pixel_off, normal_b, msh_vec2_mul, normal, extension]
    rw [hdir]
    rw [Vec2.mk.injEq]
    constructor <;> ring
  · simp only [dst5]
    rw [ndc_of_clip_b1 sqrtq mvp ⟨2 * viewport_size.x, 2 * viewport_size.y⟩
        aa_radius v0 v1 hwB,
      ndc_of_clip_b1 sqrtq mvp viewport_size aa_radius v0 v1 hwB]
    simp only [pixel_off, normal_b, msh_vec2_mul, normal, extension]
    rw [hdir]
    rw [Vec2.mk.injEq]
    constructor <;> ring

/-- C9 counterexample: for the unit segment with `aaRadius = (0,0)`
(halving it is the identity, so the claimed transformation reduces to
doubling the viewport), the NDC position of the first emitted vertex moves
from `(0, 1)` to `(0, 1/2)` â not NDC-identical as claimed. -/
theorem C9_counterexample :
    ndc_of (dst0 (fun q => q) mId ⟨1, 1⟩ ⟨0, 0⟩ sA9 sB).clip_pos = ⟨0, 1⟩ ∧
    ndc_of (dst0 (fun q => q) mId ⟨2, 2⟩ ⟨0, 0⟩ sA9 sB).clip_pos = ⟨0, 1 / 2⟩ ∧
    ((⟨0, 1⟩ : Vec2) ≠ ⟨0, 1 / 2⟩) := by
  refine ⟨?_, ?_, by simp only [ne_eq, Vec2.mk.injEq, not_and]; intro h; norm_num⟩ <;>
  norm_num [ndc_of, dst0, clip_a0, normal_a, normal, extension, msh_vec2_mul,
    dir, msh_vec2_normalize, dir_arg, line_vector, msh_vec2_sub, ndc0,
    msh_vec2_scalar_div, aspect, clip0, mId, sA9, sB, msh_mat4_vec4_mul,
    norm_sq, line_width_a, msh_max, extension_length, Vec2.mk.injEq]

/-- C9 amended witness: the concrete unit segment instantiation. -/
theorem C9_amended_pixel_congruence_witness :
    (clip0 mId sA9).w ≠ 0 ∧
    pixel_off ⟨2 * (⟨1, 1⟩ : Vec2).x, 2 * (⟨1, 1⟩ : Vec2).y⟩
        (ndc_of (dst0 (fun q => q) mId
          ⟨2 * (⟨1, 1⟩ : Vec2).x, 2 * (⟨1, 1⟩ : Vec2).y⟩ ⟨0, 0⟩ sA9 sB).clip_pos)
        (ndc0 (clip0 mId sA9)) =
      pixel_off ⟨1, 1⟩
        (ndc_of (dst0 (fun q => q) mId ⟨1, 1⟩ ⟨0, 0⟩ sA9 sB).clip_pos)
        (ndc0 (clip0 mId sA9)) := by
  have hwA : (clip0 mId sA9).w ≠ 0 := by
    norm_num [clip0, mId, sA9, msh_mat4_vec4_mul]
  have hwB : (clip0 mId sB).w ≠ 0 := by
    norm_num [clip0, mId, sB, msh_mat4_vec4_mul]
  exact ⟨hwA,
    (C9_amended_pixel_congruence (fun q => q) mId ⟨1, 1⟩ ⟨0, 0⟩ sA9 sB hwA hwB).1⟩

end Lines
